import Mathlib

/-!
Verification of the merco backtest core against its specification.

The development shallow-embeds the Rust sources in Lean.  Arbitrary-precision
signed decimals (`bigdecimal::BigDecimal`) are modelled as rationals `ℚ`:
every decimal is a rational, and the arithmetic used by the engine
(addition, subtraction, multiplication, division and the explicit rounding
in `MarketPrecision`) is exact rational arithmetic in both worlds.
Fallible Rust functions returning `AppResult` are modelled as
`Except String`, with the error strings of the source; a call that returns
`.error` produces no successor state, mirroring the fact that every early
`return Err(..)` in the source happens before any field of `self` is
assigned.
-/

namespace Merco

/-- Rounding modes of the decimal library used by the engine
(`bigdecimal::RoundingMode`): `up` rounds away from zero, `down` towards
zero, `ceiling` towards plus infinity, `floor` towards minus infinity, and
the three half modes break ties away from zero, towards zero, and to the
even neighbour respectively.  The ceiling of `q` is expressed as `-⌊-q⌋`
throughout. -/
inductive RoundingMode where
  | up
  | down
  | ceiling
  | floor
  | halfUp
  | halfDown
  | halfEven
  deriving DecidableEq

/-- Rounding of a rational to an integer, one case per mode; this models
`BigDecimal::with_scale_round(0, mode)` applied to the exact rational value. -/
def roundToInt (mode : RoundingMode) (q : ℚ) : ℤ :=
  match mode with
  | .down => if 0 ≤ q then ⌊q⌋ else -⌊-q⌋
  | .up => if 0 ≤ q then -⌊-q⌋ else ⌊q⌋
  | .floor => ⌊q⌋
  | .ceiling => -⌊-q⌋
  | .halfUp => if 0 ≤ q then ⌊q + 1 / 2⌋ else -⌊-q + 1 / 2⌋
  | .halfDown => if 0 ≤ q then -⌊1 / 2 - q⌋ else ⌊q + 1 / 2⌋
  | .halfEven =>
      if q - (⌊q⌋ : ℚ) < 1 / 2 then ⌊q⌋
      else if 1 / 2 < q - (⌊q⌋ : ℚ) then ⌊q⌋ + 1
      else if ⌊q⌋ % 2 = 0 then ⌊q⌋ else ⌊q⌋ + 1

/-- Trading fee rates of the market (`models/exchange.rs`, `TradingFees`). -/
structure TradingFees where
  maker : ℚ
  taker : ℚ
  deriving DecidableEq

/-- Price and amount quantization steps of the market
(`models/exchange.rs`, `MarketPrecision`). -/
structure MarketPrecision where
  price_precision : ℚ
  amount_precision : ℚ
  deriving DecidableEq

/-- Quantization of a price to the price step
(`MarketPrecision::round_price`): a zero step disables rounding, otherwise
the value is divided by the step, rounded to an integer with the given
mode, and multiplied back. -/
def MarketPrecision.round_price (p : MarketPrecision) (value : ℚ)
    (mode : RoundingMode) : ℚ :=
  if p.price_precision = 0 then value
  else (roundToInt mode (value / p.price_precision) : ℚ) * p.price_precision

/-- Quantization of an amount to the amount step
(`MarketPrecision::round_amount`), same scheme as `round_price` with the
amount step. -/
def MarketPrecision.round_amount (p : MarketPrecision) (value : ℚ)
    (mode : RoundingMode) : ℚ :=
  if p.amount_precision = 0 then value
  else (roundToInt mode (value / p.amount_precision) : ℚ) * p.amount_precision

/-- Modelled from the spec: the OHLCV candle record.  Its defining module is
not among the sources; field names and types follow the data model of the
spec and the uses in `strategy/context.rs` (`timestamp`, `low`, `high`,
`close`).  Timestamps are milliseconds since the epoch, modelled as `ℤ`. -/
structure Candle where
  timestamp : ℤ
  open_ : ℚ
  high : ℚ
  low : ℚ
  close : ℚ
  volume : ℚ
  deriving DecidableEq

/-- Journal entry kinds (`strategy/context.rs`, `TradeType`). -/
inductive TradeType where
  | marketBuy
  | marketSell
  | limitBuy
  | limitSell
  deriving DecidableEq

/-- A journal entry (`strategy/context.rs`, `Trade`).  The `profit` field is
populated only by the statistic pass. -/
structure Trade where
  timestamp : ℤ
  trade_type : TradeType
  price : ℚ
  amount : ℚ
  fee : ℚ
  profit : Option ℚ
  deriving DecidableEq

/-- Resting order kinds (`strategy/context.rs`, `OrderType`). -/
inductive OrderType where
  | limitBuy
  | limitSell
  deriving DecidableEq

/-- A resting limit order (`strategy/context.rs`, `Order`).  The source uses
random version-4 UUIDs as ids; the model draws ids from a fresh counter kept
in the context (see `StrategyContext.nextId`), preserving the property that
a newly created id differs from all ids previously handed out. -/
structure Order where
  id : Nat
  order_type : OrderType
  price : ℚ
  amount : ℚ
  fee : ℚ
  deriving DecidableEq

/-- The simulation context (`strategy/context.rs`, `StrategyContext`).
`nextId` is the source of fresh order ids in the model (the source calls
`Uuid::new_v4`). -/
structure StrategyContext where
  candles : List Candle
  balance : ℚ
  position : ℚ
  trades : List Trade
  orders : List Order
  fees : TradingFees
  precision : MarketPrecision
  nextId : Nat
  deriving DecidableEq

namespace StrategyContext

/-- Context construction (`StrategyContext::new`): empty candle, trade and
order lists, zero position. -/
def new (balance : ℚ) (fees : TradingFees) (precision : MarketPrecision) :
    StrategyContext :=
  { candles := []
    balance := balance
    position := 0
    trades := []
    orders := []
    fees := fees
    precision := precision
    nextId := 0 }

/-- The current candle (`StrategyContext::candle`): the last pushed candle,
or the error of the source when none is present. -/
def candle (ctx : StrategyContext) : Except String Candle :=
  match ctx.candles.getLast? with
  | some c => .ok c
  | none => .error "No candles available"

/-- Cancellation of a resting order (`StrategyContext::cancel_order`): look
up the first order with the given id; refund `price*amount + fee` to the
balance for a limit buy, or `amount` to the position and `fee` to the
balance for a limit sell; then remove that order.  A missing id is a no-op. -/
def cancel_order (ctx : StrategyContext) (order_id : Nat) : StrategyContext :=
  match ctx.orders.find? (fun o => o.id == order_id) with
  | none => ctx
  | some o =>
    let ctx' :=
      match o.order_type with
      | .limitBuy =>
          { ctx with balance := ctx.balance + (o.price * o.amount + o.fee) }
      | .limitSell =>
          { ctx with position := ctx.position + o.amount,
                     balance := ctx.balance + o.fee }
    { ctx' with orders := ctx.orders.eraseP (fun o2 => o2.id == order_id) }

/-- Market buy (`StrategyContext::market_buy`): round the amount down,
reject non-positive amounts, price at the last close, charge
`cost + round_amount(cost*taker, Up)`, reject if that exceeds the balance,
otherwise debit the balance, credit the position and append a journal
entry. -/
def market_buy (ctx : StrategyContext) (amount0 : ℚ) :
    Except String StrategyContext :=
  let amount := ctx.precision.round_amount amount0 .down
  if amount ≤ 0 then .error "Amount must be positive"
  else
    match ctx.candles.getLast? with
    | none => .error "No candles available"
    | some candle =>
      let price := candle.close
      let cost := price * amount
      let fee := ctx.precision.round_amount (cost * ctx.fees.taker) .up
      let total := cost + fee
      if total > ctx.balance then .error "Insufficient funds"
      else
        .ok { ctx with
                balance := ctx.balance - total
                position := ctx.position + amount
                trades := ctx.trades ++
                  [{ timestamp := candle.timestamp, trade_type := .marketBuy,
                     price := price, amount := amount, fee := fee,
                     profit := none }] }

/-- Market sell (`StrategyContext::market_sell`): round the amount down,
reject non-positive amounts and amounts above the position, price at the
last close, revenue is `proceeds - round_amount(proceeds*taker, Up)`,
rejected when negative; otherwise debit the position, credit the balance
and append a journal entry. -/
def market_sell (ctx : StrategyContext) (amount0 : ℚ) :
    Except String StrategyContext :=
  let amount := ctx.precision.round_amount amount0 .down
  if amount ≤ 0 then .error "Amount must be positive"
  else if amount > ctx.position then
    .error "Insufficient base asset amount to sell"
  else
    match ctx.candles.getLast? with
    | none => .error "No candles available"
    | some candle =>
      let price := candle.close
      let proceeds := price * amount
      let fee := ctx.precision.round_amount (proceeds * ctx.fees.taker) .up
      let revenue := proceeds - fee
      if revenue < 0 then .error "Revenue cannot be negative"
      else
        .ok { ctx with
                position := ctx.position - amount
                balance := ctx.balance + revenue
                trades := ctx.trades ++
                  [{ timestamp := candle.timestamp, trade_type := .marketSell,
                     price := price, amount := amount, fee := fee,
                     profit := none }] }

/-- Limit buy (`StrategyContext::limit_buy`): price and amount are both
rounded down with the amount step; non-positive amounts are rejected; a
price at or above the last close falls back to `market_buy` and returns no
id; otherwise `cost + round_amount(cost*maker, Up)` is reserved from the
balance (rejected if insufficient) and a resting order with a fresh id is
inserted. -/
def limit_buy (ctx : StrategyContext) (price0 amount0 : ℚ) :
    Except String (StrategyContext × Option Nat) :=
  let price := ctx.precision.round_amount price0 .down
  let amount := ctx.precision.round_amount amount0 .down
  if amount ≤ 0 then .error "Amount must be positive"
  else
    match ctx.candles.getLast? with
    | none => .error "No candles available"
    | some candle =>
      if price ≥ candle.close then
        match ctx.market_buy amount with
        | .ok c => .ok (c, none)
        | .error e => .error e
      else
        let cost := amount * price
        let fee := ctx.precision.round_amount (cost * ctx.fees.maker) .up
        let total := cost + fee
        if total > ctx.balance then .error "Insufficient funds"
        else
          .ok ({ ctx with
                   balance := ctx.balance - total
                   orders := ctx.orders ++
                     [{ id := ctx.nextId, order_type := .limitBuy,
                        price := price, amount := amount, fee := fee }]
                   nextId := ctx.nextId + 1 }, some ctx.nextId)

/-- Limit sell (`StrategyContext::limit_sell`): price and amount are both
rounded down with the amount step; non-positive amounts and amounts above
the position are rejected; a price at or below the last close falls back to
`market_sell` and returns no id; otherwise the maker fee
`round_amount(price*amount*maker, Up)` is reserved from the balance
(rejected if insufficient) together with the amount from the position, and
a resting order with a fresh id is inserted. -/
def limit_sell (ctx : StrategyContext) (price0 amount0 : ℚ) :
    Except String (StrategyContext × Option Nat) :=
  let price := ctx.precision.round_amount price0 .down
  let amount := ctx.precision.round_amount amount0 .down
  if amount ≤ 0 then .error "Amount must be positive"
  else if amount > ctx.position then
    .error "Insufficient base asset amount to sell"
  else
    match ctx.candles.getLast? with
    | none => .error "No candles available"
    | some candle =>
      if price ≤ candle.close then
        match ctx.market_sell amount with
        | .ok c => .ok (c, none)
        | .error e => .error e
      else
        let proceeds := price * amount
        let fee := ctx.precision.round_amount (proceeds * ctx.fees.maker) .up
        if fee > ctx.balance then .error "Insufficient funds to cover fee"
        else
          .ok ({ ctx with
                   position := ctx.position - amount
                   balance := ctx.balance - fee
                   orders := ctx.orders ++
                     [{ id := ctx.nextId, order_type := .limitSell,
                        price := price, amount := amount, fee := fee }]
                   nextId := ctx.nextId + 1 }, some ctx.nextId)

/-- Fill of a resting limit buy (`StrategyContext::execute_limit_buy`):
credit the position with the amount (the quote currency and fee were
debited at placement) and journal the trade at the stored price. -/
def execute_limit_buy (ctx : StrategyContext) (candle : Candle)
    (price amount fee : ℚ) : StrategyContext :=
  { ctx with
      position := ctx.position + amount
      trades := ctx.trades ++
        [{ timestamp := candle.timestamp, trade_type := .limitBuy,
           price := price, amount := amount, fee := fee, profit := none }] }

/-- Fill of a resting limit sell (`StrategyContext::execute_limit_sell`):
credit the balance with `price*amount` (the base amount and maker fee were
debited at placement) and journal the trade at the stored price. -/
def execute_limit_sell (ctx : StrategyContext) (candle : Candle)
    (price amount fee : ℚ) : StrategyContext :=
  { ctx with
      balance := ctx.balance + price * amount
      trades := ctx.trades ++
        [{ timestamp := candle.timestamp, trade_type := .limitSell,
           price := price, amount := amount, fee := fee, profit := none }] }

/-- Whether the current candle fills a resting order (the conditions of the
match loop in `StrategyContext::before`): a limit buy fills when its price
is at least the candle low, a limit sell when its price is at most the
candle high. -/
def fillable (candle : Candle) (o : Order) : Bool :=
  match o.order_type with
  | .limitBuy => candle.low ≤ o.price
  | .limitSell => o.price ≤ candle.high

/-- The body of the execution loop of `StrategyContext::before`: execute
one collected fill and remove the filled order by id (`orders.retain`). -/
def beforeStep (candle : Candle) (c : StrategyContext) (o : Order) :
    StrategyContext :=
  let c' :=
    match o.order_type with
    | .limitBuy => c.execute_limit_buy candle o.price o.amount o.fee
    | .limitSell => c.execute_limit_sell candle o.price o.amount o.fee
  { c' with orders := c'.orders.filter (fun o2 => o2.id != o.id) }

/-- Per-candle matching hook (`StrategyContext::before`): collect the
resting orders filled by the current candle in insertion order, then
execute each fill and remove the filled order by id. -/
def before (ctx : StrategyContext) : Except String StrategyContext :=
  match ctx.candles.getLast? with
  | none => .error "No candles available"
  | some candle =>
    let orders_to_execute := ctx.orders.filter (fillable candle)
    .ok (orders_to_execute.foldl (beforeStep candle) ctx)

/-- Post-tick hook (`StrategyContext::after`): a no-op. -/
def after (ctx : StrategyContext) : Except String StrategyContext :=
  .ok ctx

/-- End-of-run flush (`StrategyContext::end`, renamed since `end` is a Lean
keyword): cancel every remaining resting order, in insertion order. -/
def endRun (ctx : StrategyContext) : StrategyContext :=
  (ctx.orders.map (fun o => o.id)).foldl (fun c i => c.cancel_order i) ctx

end StrategyContext

/-- One step a backtest run can perform on a context: the public trading
calls, the lifecycle hooks, or the runner appending the next candle
(`context.candles.push(candle)` in `tasks/backtest.rs`), which is how any
candle ever becomes visible to the context. -/
inductive CtxOp where
  | pushCandle (c : Candle)
  | marketBuy (amount : ℚ)
  | marketSell (amount : ℚ)
  | limitBuy (price amount : ℚ)
  | limitSell (price amount : ℚ)
  | cancelOrder (id : Nat)
  | beforeHook
  | afterHook
  | endHook

/-- Application of a single step to a context. -/
def applyOp (ctx : StrategyContext) (op : CtxOp) :
    Except String StrategyContext :=
  match op with
  | .pushCandle c => .ok { ctx with candles := ctx.candles ++ [c] }
  | .marketBuy a => ctx.market_buy a
  | .marketSell a => ctx.market_sell a
  | .limitBuy p a =>
      match ctx.limit_buy p a with
      | .ok (c, _) => .ok c
      | .error e => .error e
  | .limitSell p a =>
      match ctx.limit_sell p a with
      | .ok (c, _) => .ok c
      | .error e => .error e
  | .cancelOrder i => .ok (ctx.cancel_order i)
  | .beforeHook => ctx.before
  | .afterHook => ctx.after
  | .endHook => .ok ctx.endRun

/-- Sequential application of steps; the sequence succeeds when every step
succeeds. -/
def runOps (ctx : StrategyContext) : List CtxOp → Except String StrategyContext
  | [] => .ok ctx
  | op :: rest =>
    match applyOp ctx op with
    | .ok c => runOps c rest
    | .error e => .error e

/-- Whether a journal entry is a buy (the `matches!` test of the statistic
pass in `tasks/backtest.rs`). -/
def Trade.isBuy (t : Trade) : Bool :=
  match t.trade_type with
  | .marketBuy => true
  | .limitBuy => true
  | .marketSell => false
  | .limitSell => false

/-- The mutable accumulator of `BacktestTask::calculate_backtest_statistic`:
running balance, position and open-position cost basis, the equity
high-watermark and drawdown trackers, the aggregate counters, and the
output journal (`trades_with_profit`).  The `f32` percentage is idealized
as an exact rational. -/
structure StatState where
  balance : ℚ
  position : ℚ
  total_cost : ℚ
  max_equity : ℚ
  max_drawdown : ℚ
  max_drawdown_percent : ℚ
  buy_trades : Nat
  sell_trades : Nat
  winning_trades : Nat
  losing_trades : Nat
  gross_profit : ℚ
  gross_loss : ℚ
  largest_win : ℚ
  largest_loss : ℚ
  trades_with_profit : List Trade
  deriving DecidableEq

/-- Initial accumulator of the statistic pass. -/
def initStatState (initial_capital : ℚ) : StatState :=
  { balance := initial_capital
    position := 0
    total_cost := 0
    max_equity := initial_capital
    max_drawdown := 0
    max_drawdown_percent := 0
    buy_trades := 0
    sell_trades := 0
    winning_trades := 0
    losing_trades := 0
    gross_profit := 0
    gross_loss := 0
    largest_win := 0
    largest_loss := 0
    trades_with_profit := [] }

/-- The per-trade update of the statistic pass: the body of the drain loop
of `calculate_backtest_statistic`, which appears verbatim twice in the
source (once inside the candle loop, once for the tail of the journal after
the last candle).  Buys accumulate cost; sells realize profit against the
running average cost basis and classify the result. -/
def statStep (s : StatState) (t : Trade) : StatState :=
  if t.isBuy then
    let cost := t.price * t.amount + t.fee
    { s with
        buy_trades := s.buy_trades + 1
        total_cost := s.total_cost + cost
        balance := s.balance - cost
        position := s.position + t.amount
        trades_with_profit := s.trades_with_profit ++ [t] }
  else
    let proceeds := t.price * t.amount
    let revenue := proceeds - t.fee
    let average_cost := if s.position = 0 then 0 else s.total_cost / s.position
    let profit := revenue - average_cost * t.amount
    let position' := s.position - t.amount
    let total_cost' :=
      if position' = 0 then 0 else s.total_cost - average_cost * t.amount
    let s' := { s with
        sell_trades := s.sell_trades + 1
        position := position'
        balance := s.balance + revenue
        total_cost := total_cost' }
    let s'' :=
      if profit > 0 then
        { s' with
            winning_trades := s'.winning_trades + 1
            gross_profit := s'.gross_profit + profit
            largest_win :=
              if profit > s'.largest_win then profit else s'.largest_win }
      else if profit < 0 then
        { s' with
            losing_trades := s'.losing_trades + 1
            gross_loss := s'.gross_loss + profit
            largest_loss :=
              if profit < s'.largest_loss then profit else s'.largest_loss }
      else s'
    { s'' with
        trades_with_profit :=
          s''.trades_with_profit ++ [{ t with profit := some profit }] }

/-- The drain of the peekable journal iterator: process journal entries from
the front while their timestamp is at most that of the candle, returning the new
accumulator and the remaining journal. -/
def drainTrades (candle_ts : ℤ) :
    StatState → List Trade → StatState × List Trade
  | s, [] => (s, [])
  | s, t :: rest =>
    if t.timestamp ≤ candle_ts then drainTrades candle_ts (statStep s t) rest
    else (s, t :: rest)

/-- The equity and drawdown update performed after draining the trades of a candle: raise the high-watermark equity against the candle high, and
measure the drawdown of the candle low against the high-watermark.  The
percentage is only refreshed when a new maximal drawdown is found and the
high-watermark is non-zero, exactly as in the source. -/
def equityUpdate (s : StatState) (candle : Candle) : StatState :=
  let high_value := s.position * candle.high + s.balance
  let s1 :=
    if high_value > s.max_equity then { s with max_equity := high_value } else s
  let low_value := s1.position * candle.low + s1.balance
  let drawdown := s1.max_equity - low_value
  if drawdown > s1.max_drawdown then
    { s1 with
        max_drawdown := drawdown
        max_drawdown_percent :=
          if s1.max_equity ≠ 0 then drawdown / s1.max_equity * 100
          else s1.max_drawdown_percent }
  else s1

/-- One candle of the statistic pass: drain the due journal entries, then
update equity and drawdown. -/
def statCandleStep (acc : StatState × List Trade) (candle : Candle) :
    StatState × List Trade :=
  let (s, ts) := drainTrades candle.timestamp acc.1 acc.2
  (equityUpdate s candle, ts)

/-- The full accumulation of `calculate_backtest_statistic`: fold the
candles, then drain the remaining journal entries (with no further equity
updates). -/
def statLoop (initial_capital : ℚ) (candles : List Candle)
    (trades : List Trade) : StatState :=
  let (s, rest) := candles.foldl statCandleStep (initStatState initial_capital, trades)
  rest.foldl statStep s

/-- Rounding to two decimal places with ties away from zero
(`with_scale_round(2, RoundingMode::HalfUp)`). -/
def roundScale2HalfUp (q : ℚ) : ℚ :=
  (roundToInt .halfUp (q * 100) : ℚ) / 100

/-- Value of an `f32` summary field that the source can set to
`f32::INFINITY`; finite values are idealized as exact rationals. -/
inductive FloatVal where
  | fin (q : ℚ)
  | posInf
  deriving DecidableEq

/-- Result of `BacktestTask::calculate_sharpe_ratio`.  The source computes
in `f64` and returns an `f32`; the model computes the same expressions in
exact rational arithmetic.  The finite branch returns `mean/std_dev` where
`std_dev = √variance` is irrational in general, so the model represents
that branch by the pair of the mean and the (population) variance it is
built from; `f32::INFINITY` becomes `posInf` and `0.0` becomes `zero`. -/
inductive SharpeOutcome where
  | zero
  | posInf
  | meanOverStd (mean variance : ℚ)
  deriving DecidableEq

/-- Sharpe computation (`BacktestTask::calculate_sharpe_ratio`): filter the
journal to entries carrying a non-zero realized profit; none → `zero`;
exactly one → `posInf`; otherwise per-trade returns `profit/initial_capital`,
their mean and population variance; zero deviation → `posInf`; otherwise the
finite `mean/std_dev` value.  In the source the `std_dev == 0.0` test holds
exactly when the variance is zero, and `initial_capital.to_f64()` is
idealized as the exact rational. -/
def calculate_sharpe_ratio (trades : List Trade) (initial_capital : ℚ) :
    SharpeOutcome :=
  if trades.isEmpty then .zero
  else
    let sell_trades := trades.filter fun t =>
      match t.profit with
      | some profit => profit ≠ 0
      | none => false
    if sell_trades.isEmpty then .zero
    else if sell_trades.length = 1 then .posInf
    else
      let returns := (sell_trades.filterMap fun t => t.profit).map
        fun profit => profit / initial_capital
      let mean_return := returns.sum / (returns.length : ℚ)
      let variance :=
        ((returns.map fun r => (r - mean_return) * (r - mean_return)).sum) /
          (returns.length : ℚ)
      if variance = 0 then .posInf
      else .meanOverStd mean_return variance

/-- The summary record (`tasks/backtest.rs`, `BacktestStatistic`).  Decimal
fields are rationals; the `f32` ratio fields are idealized as exact
rationals, `profit_factor` keeping its possible infinity and `sharpe_ratio`
its three-way outcome. -/
structure BacktestStatistic where
  trades : List Trade
  initial_capital : ℚ
  total_cost : ℚ
  net_profit : ℚ
  return_percent : ℚ
  max_equity : ℚ
  max_drawdown : ℚ
  max_drawdown_percent : ℚ
  gross_profit : ℚ
  gross_loss : ℚ
  profit_factor : FloatVal
  sharpe_ratio : SharpeOutcome
  total_trades : Nat
  buy_trades : Nat
  sell_trades : Nat
  winning_trades : Nat
  losing_trades : Nat
  win_rate : ℚ
  avg_win : ℚ
  avg_loss : ℚ
  largest_win : ℚ
  largest_loss : ℚ
  deriving DecidableEq

/-- The statistic computation (`BacktestTask::calculate_backtest_statistic`):
run the two-pass accumulation, then assemble the final aggregates. -/
def calculate_backtest_statistic (initial_capital : ℚ)
    (candles : List Candle) (trades : List Trade) : BacktestStatistic :=
  let s := statLoop initial_capital candles trades
  let total_trades := s.buy_trades + s.sell_trades
  let win_rate : ℚ :=
    if s.sell_trades > 0 then (s.winning_trades : ℚ) / (s.sell_trades : ℚ) * 100
    else 0
  let avg_win :=
    if s.winning_trades > 0 then
      roundScale2HalfUp (s.gross_profit / (s.winning_trades : ℚ))
    else 0
  let avg_loss :=
    if s.losing_trades > 0 then
      roundScale2HalfUp (s.gross_loss / (s.losing_trades : ℚ))
    else 0
  let profit_factor : FloatVal :=
    if s.gross_loss = 0 then
      if s.gross_profit ≠ 0 then .posInf else .fin 0
    else .fin (s.gross_profit / |s.gross_loss|)
  let net_profit := roundScale2HalfUp (s.gross_profit + s.gross_loss)
  let return_percent : ℚ :=
    if initial_capital ≠ 0 then net_profit / initial_capital * 100 else 0
  let sharpe_ratio := calculate_sharpe_ratio s.trades_with_profit initial_capital
  { trades := s.trades_with_profit
    initial_capital := initial_capital
    total_cost := s.total_cost
    net_profit := net_profit
    return_percent := return_percent
    max_equity := s.max_equity
    max_drawdown := s.max_drawdown
    max_drawdown_percent := s.max_drawdown_percent
    gross_profit := s.gross_profit
    gross_loss := s.gross_loss
    profit_factor := profit_factor
    sharpe_ratio := sharpe_ratio
    total_trades := total_trades
    buy_trades := s.buy_trades
    sell_trades := s.sell_trades
    winning_trades := s.winning_trades
    losing_trades := s.losing_trades
    win_rate := win_rate
    avg_win := avg_win
    avg_loss := avg_loss
    largest_win := s.largest_win
    largest_loss := s.largest_loss }

/-- Task lifecycle states (`tasks/backtest.rs`, `BacktestStatus`). -/
inductive BacktestStatus where
  | pending
  | running
  | completed
  | failed
  deriving DecidableEq

/-- The mutable task record (`tasks/backtest.rs`, `BacktestTask`), restricted
to the fields `execute` reads or writes; identity fields (id, name,
exchange, symbol, timeframe, precision, created_at) are carried by the
ports of the model instead.  Timestamps are milliseconds, progress the
exact rational behind the `f32`. -/
structure BacktestTaskState where
  status : BacktestStatus
  progress : ℚ
  statistic : Option BacktestStatistic
  error_message : Option String
  started_at : Option ℤ
  completed_at : Option ℤ
  updated_at : ℤ
  deriving DecidableEq

/-- The per-candle loop of `BacktestTask::execute_backtest`: push the
candle, run `before`, the strategy `tick` and `after` (any failure aborts),
and broadcast a progress snapshot every 100 candles.  Returns the final
context (or the aborting error) together with the task record and the list
of broadcast snapshots, which survive a failure exactly as the mutations of
`&mut self` do in the source. -/
def runCandles (tick : StrategyContext → Except String StrategyContext)
    (total : Nat) (now : ℤ) :
    Nat → StrategyContext → BacktestTaskState → List BacktestTaskState →
    List Candle →
    Except String StrategyContext × BacktestTaskState × List BacktestTaskState
  | _, ctx, task, log, [] => (.ok ctx, task, log)
  | index, ctx, task, log, candle :: rest =>
    let ctx0 := { ctx with candles := ctx.candles ++ [candle] }
    match ctx0.before with
    | .error e => (.error e, task, log)
    | .ok ctx1 =>
      match tick ctx1 with
      | .error e => (.error e, task, log)
      | .ok ctx2 =>
        match ctx2.after with
        | .error e => (.error e, task, log)
        | .ok ctx3 =>
          let (task', log') :=
            if index % 100 = 0 then
              let progress := 100 * ((index : ℚ) + 1) / (total : ℚ)
              let t := { task with progress := progress, updated_at := now }
              (t, log ++ [t])
            else (task, log)
          runCandles tick total now (index + 1) ctx3 task' log' rest

/-- The body of a run (`BacktestTask::execute_backtest`).  The candle store
port is a parameter carrying either the ordered candle window or its
failure; the exchange metadata port supplies fees and precision; the
strategy port is the `tick` function; `now` stands for the wall clock.  An
empty window fails with the `NoData` message of the source before any port other
than the candle store is consulted. -/
def execute_backtest (candlesResult : Except String (List Candle))
    (fees : TradingFees) (precision : MarketPrecision)
    (tick : StrategyContext → Except String StrategyContext) (now : ℤ)
    (task : BacktestTaskState) :
    Except String BacktestStatistic × BacktestTaskState × List BacktestTaskState :=
  match candlesResult with
  | .error e => (.error e, task, [])
  | .ok all_candles =>
    if all_candles.length = 0 then
      (.error "No candles available for backtest", task, [])
    else
      let initial_capital : ℚ := 10000
      let context := StrategyContext.new initial_capital fees precision
      let (res, task1, log) :=
        runCandles tick all_candles.length now 0 context task [] all_candles
      match res with
      | .error e => (.error e, task1, log)
      | .ok context1 =>
        let context2 := context1.endRun
        let task2 := { task1 with progress := 100, updated_at := now }
        let log2 := log ++ [task2]
        let stat := calculate_backtest_statistic initial_capital
          context2.candles context2.trades
        (.ok stat, task2, log2)

/-- The task wrapper (`BacktestTask::execute`): move to `Running` and
broadcast, run the body, then set the terminal state (`Completed` with the
statistic, or `Failed` with the error message) and broadcast it.  Returns
the final task record and the ordered list of broadcast snapshots. -/
def BacktestTaskState.execute (task : BacktestTaskState)
    (candlesResult : Except String (List Candle)) (fees : TradingFees)
    (precision : MarketPrecision)
    (tick : StrategyContext → Except String StrategyContext) (now : ℤ) :
    BacktestTaskState × List BacktestTaskState :=
  let task1 := { task with
    status := .running
    started_at := some now
    updated_at := now }
  let log := [task1]
  let (result, task2, log') :=
    execute_backtest candlesResult fees precision tick now task1
  let task3 :=
    match result with
    | .ok statistic =>
        { task2 with
            status := .completed
            progress := 100
            statistic := some statistic
            completed_at := some now
            updated_at := now }
    | .error e =>
        { task2 with
            status := .failed
            error_message := some e
            completed_at := some now
            updated_at := now }
  (task3, (log ++ log') ++ [task3])

/-! ## Derived notions used in theorem statements -/

/-- The journal entry produced by filling the given resting order on the
given candle (the entries built by `execute_limit_buy` and
`execute_limit_sell`). -/
def fillTrade (candle : Candle) (o : Order) : Trade :=
  { timestamp := candle.timestamp
    trade_type :=
      match o.order_type with
      | .limitBuy => .limitBuy
      | .limitSell => .limitSell
    price := o.price
    amount := o.amount
    fee := o.fee
    profit := none }

/-- The position credited by filling the given order: its amount for a
limit buy, nothing for a limit sell. -/
def buyAmount (o : Order) : ℚ :=
  match o.order_type with
  | .limitBuy => o.amount
  | .limitSell => 0

/-- The balance credited by filling the given order: `price*amount` for a
limit sell, nothing for a limit buy. -/
def sellProceeds (o : Order) : ℚ :=
  match o.order_type with
  | .limitBuy => 0
  | .limitSell => o.price * o.amount

/-- Well-formedness of a resting order as the trading calls maintain it:
non-negative price, amount and fee. -/
def Order.WF (o : Order) : Prop :=
  0 ≤ o.price ∧ 0 ≤ o.amount ∧ 0 ≤ o.fee

/-- The inductive invariant of the solvency proof: non-negative balance and
position, well-formed resting orders, and a non-negative maker fee rate. -/
def StrategyContext.Solvent (ctx : StrategyContext) : Prop :=
  0 ≤ ctx.balance ∧ 0 ≤ ctx.position ∧ (∀ o ∈ ctx.orders, o.WF) ∧
    0 ≤ ctx.fees.maker

/-- Whether a step passes only non-negative prices to the limit calls. -/
def CtxOp.PriceNonneg : CtxOp → Prop
  | .limitBuy price _ => 0 ≤ price
  | .limitSell price _ => 0 ≤ price
  | _ => True

/-- The balance of the final context of a successful run of the given
steps, `none` when some step fails. -/
def runBalance (ctx : StrategyContext) (ops : List CtxOp) : Option ℚ :=
  match runOps ctx ops with
  | .ok c => some c.balance
  | .error _ => none

/-- The journal entries carrying a non-zero realized profit (the filter of
`calculate_sharpe_ratio`). -/
def profitableSells (trades : List Trade) : List Trade :=
  trades.filter fun t =>
    match t.profit with
    | some profit => profit ≠ 0
    | none => false

/-- Per-trade returns: each carried profit divided by the initial capital. -/
def tradeReturns (trades : List Trade) (initial_capital : ℚ) : List ℚ :=
  (trades.filterMap fun t => t.profit).map
    fun profit => profit / initial_capital

/-- Mean of a list of rationals. -/
def listMean (l : List ℚ) : ℚ := l.sum / (l.length : ℚ)

/-- Population variance of a list of rationals. -/
def popVariance (l : List ℚ) : ℚ :=
  ((l.map fun r => (r - listMean l) * (r - listMean l)).sum) / (l.length : ℚ)

/-! ## Concrete instances used to witness the theorems -/

/-- A market with both quantization steps zero (rounding disabled). -/
def noPrecision : MarketPrecision := ⟨0, 0⟩

/-- Zero trading fees. -/
def zeroFees : TradingFees := ⟨0, 0⟩

/-- Ten-basis-point maker and taker fees, the rates of the end-to-end
scenarios of the spec. -/
def bpFees : TradingFees := ⟨1 / 1000, 1 / 1000⟩

/-- A flat candle: all four prices equal, zero volume. -/
def flatCandle (ts : ℤ) (price : ℚ) : Candle :=
  ⟨ts, price, price, price, price, 0⟩

/-- The insufficient-funds scenario of the spec: balance 10, one candle at
close 100, ten-basis-point fees, no rounding steps. -/
def c4Ctx : StrategyContext :=
  { candles := [flatCandle 0 100]
    balance := 10
    position := 0
    trades := []
    orders := []
    fees := bpFees
    precision := noPrecision
    nextId := 0 }

/-- A context holding inventory whose balance cannot cover a maker fee:
balance 1/25, position 5, one candle at close 100. -/
def c10Ctx : StrategyContext :=
  { candles := [flatCandle 0 100]
    balance := 1 / 25
    position := 5
    trades := []
    orders := []
    fees := bpFees
    precision := noPrecision
    nextId := 0 }

/-- A funded context with inventory, zero fees and no rounding steps, with
one candle at close 100. -/
def c6Ctx : StrategyContext :=
  { candles := [flatCandle 0 100]
    balance := 1000
    position := 5
    trades := []
    orders := []
    fees := zeroFees
    precision := noPrecision
    nextId := 0 }

/-- The state of `c6Ctx` after `limit_buy 50 1` rests an order: the cost 50
is reserved and the order is inserted. -/
def c6Ctx' : StrategyContext :=
  { candles := [flatCandle 0 100]
    balance := 950
    position := 5
    trades := []
    orders := [{ id := 0, order_type := .limitBuy, price := 50, amount := 1,
                 fee := 0 }]
    fees := zeroFees
    precision := noPrecision
    nextId := 1 }

/-- Steps of the solvency counterexample: a candle at close 100, a resting
limit buy at the (negative) price -50, a market buy spending the whole
balance, then cancellation of the resting order. -/
def c1Ops : List CtxOp :=
  [.pushCandle (flatCandle 0 100), .limitBuy (-50) 1, .marketBuy (3 / 2),
   .cancelOrder 0]

/-- Steps of the solvency witness: a candle at close 100 and a market buy
of one unit. -/
def c1wOps : List CtxOp :=
  [.pushCandle (flatCandle 0 100), .marketBuy 1]

/-- The context reached by `c1wOps` from a fresh context with balance 1000,
zero fees and no rounding steps. -/
def c1wCtx : StrategyContext :=
  { candles := [flatCandle 0 100]
    balance := 900
    position := 1
    trades := [{ timestamp := 0, trade_type := .marketBuy, price := 100,
                 amount := 1, fee := 0, profit := none }]
    orders := []
    fees := zeroFees
    precision := noPrecision
    nextId := 0 }

/-- The candle of the matching scenario: close 105, range 95–106. -/
def c5Candle : Candle := ⟨1, 105, 106, 95, 105, 0⟩

/-- A context holding one fillable limit buy (price 98 ≥ low 95) and one
unfillable limit sell (price 200 > high 106) on the candle `c5Candle`. -/
def c5Ctx : StrategyContext :=
  { candles := [c5Candle]
    balance := 100
    position := 0
    trades := []
    orders := [{ id := 0, order_type := .limitBuy, price := 98, amount := 1,
                 fee := 0 },
               { id := 1, order_type := .limitSell, price := 200, amount := 2,
                 fee := 0 }]
    fees := zeroFees
    precision := noPrecision
    nextId := 2 }

/-- The state of `c5Ctx` after `before`: the buy filled and was removed,
the sell still rests. -/
def c5Ctx' : StrategyContext :=
  { candles := [c5Candle]
    balance := 100
    position := 1
    trades := [{ timestamp := 1, trade_type := .limitBuy, price := 98,
                 amount := 1, fee := 0, profit := none }]
    orders := [{ id := 1, order_type := .limitSell, price := 200, amount := 2,
                 fee := 0 }]
    fees := zeroFees
    precision := noPrecision
    nextId := 2 }

/-- A statistic accumulator holding two units bought for a total cost of
40, with balance 100. -/
def c2Stat : StatState :=
  { balance := 100
    position := 2
    total_cost := 40
    max_equity := 100
    max_drawdown := 0
    max_drawdown_percent := 0
    buy_trades := 1
    sell_trades := 0
    winning_trades := 0
    losing_trades := 0
    gross_profit := 0
    gross_loss := 0
    largest_win := 0
    largest_loss := 0
    trades_with_profit := [] }

/-- A sell of one unit at price 30 with fee 1. -/
def c2Trade : Trade :=
  { timestamp := 5, trade_type := .marketSell, price := 30, amount := 1,
    fee := 1, profit := none }

/-- Two sell entries with differing non-zero realized profits 10 and 20. -/
def c7Trades : List Trade :=
  [{ timestamp := 0, trade_type := .marketSell, price := 0, amount := 0,
     fee := 0, profit := some 10 },
   { timestamp := 1, trade_type := .marketSell, price := 0, amount := 0,
     fee := 0, profit := some 20 }]

/-- A freshly created task record: `Pending`, zero progress, no statistic,
no error, no timestamps (`handlers/backtest.rs`, `create_task`). -/
def c8Task : BacktestTaskState :=
  { status := .pending
    progress := 0
    statistic := none
    error_message := none
    started_at := none
    completed_at := none
    updated_at := 0 }

/-! ## Theorems -/

/-- Rounding an integer to an integer is the identity, in every mode. -/
theorem roundToInt_intCast (mode : RoundingMode) (n : ℤ) :
    roundToInt mode (n : ℚ) = n := by
  have hfloor : ⌊(n : ℚ)⌋ = n := Int.floor_intCast n
  have hnegfloor : -⌊-(n : ℚ)⌋ = n := by
    rw [show -(n : ℚ) = ((-n : ℤ) : ℚ) by push_cast; ring, Int.floor_intCast]; ring
  have hinv : ⌊(2⁻¹ : ℚ)⌋ = 0 := by norm_num
  have h2 : ⌊-(n : ℚ) + 2⁻¹⌋ = -n := by
    rw [show -(n : ℚ) + 2⁻¹ = 2⁻¹ + ((-n : ℤ) : ℚ) by push_cast; ring,
      Int.floor_add_int, hinv]
    ring
  cases mode with
  | down => simp [roundToInt, hfloor, hnegfloor]
  | up => simp [roundToInt, hfloor, hnegfloor]
  | floor => simp [roundToInt, hfloor]
  | ceiling => simp [roundToInt, hnegfloor]
  | halfUp => simp [roundToInt, hinv, h2]
  | halfDown => simp [roundToInt, hinv, h2]
  | halfEven => simp [roundToInt, hfloor]

/-- Rounding towards zero maps non-negative rationals to non-negative
integers. -/
theorem roundToInt_down_nonneg {q : ℚ} (h : 0 ≤ q) : 0 ≤ roundToInt .down q := by
  simp only [roundToInt, if_pos h]
  exact Int.floor_nonneg.2 h

/-- Rounding towards zero maps non-positive rationals to non-positive
integers. -/
theorem roundToInt_down_nonpos {q : ℚ} (h : q ≤ 0) : roundToInt .down q ≤ 0 := by
  simp only [roundToInt]
  by_cases h0 : 0 ≤ q
  · have : q = 0 := le_antisymm h h0
    simp [this]
  · rw [if_neg h0]
    have : (0 : ℚ) ≤ -q := by linarith
    have := Int.floor_nonneg.2 this
    omega

/-- Rounding away from zero maps non-negative rationals to non-negative
integers. -/
theorem roundToInt_up_nonneg {q : ℚ} (h : 0 ≤ q) : 0 ≤ roundToInt .up q := by
  simp only [roundToInt, if_pos h]
  have : ⌊-q⌋ ≤ 0 := by
    have : -q ≤ 0 := by linarith
    calc ⌊-q⌋ ≤ ⌊(0 : ℚ)⌋ := Int.floor_le_floor this
    _ = 0 := by norm_num
  omega

/-- Rounding away from zero maps non-positive rationals to non-positive
integers. -/
theorem roundToInt_up_nonpos {q : ℚ} (h : q ≤ 0) : roundToInt .up q ≤ 0 := by
  simp only [roundToInt]
  by_cases h0 : 0 ≤ q
  · have hq : q = 0 := le_antisymm h h0
    simp [hq]
  · rw [if_neg h0]
    exact le_trans (Int.floor_le_floor h) (by norm_num)

/-- Rounding a non-negative value towards zero yields a non-negative value,
whatever the amount step. -/
theorem round_amount_down_nonneg (p : MarketPrecision) {x : ℚ} (h : 0 ≤ x) :
    0 ≤ p.round_amount x .down := by
  unfold MarketPrecision.round_amount
  by_cases hs : p.amount_precision = 0
  · simpa [hs]
  · rw [if_neg hs]
    rcases lt_or_gt_of_ne hs with hneg | hpos
    · have hq : x / p.amount_precision ≤ 0 :=
        div_nonpos_of_nonneg_of_nonpos h (le_of_lt hneg)
      have := roundToInt_down_nonpos hq
      have hcast : (roundToInt .down (x / p.amount_precision) : ℚ) ≤ 0 := by
        exact_mod_cast this
      nlinarith [hcast, hneg]
    · have hq : 0 ≤ x / p.amount_precision := div_nonneg h (le_of_lt hpos)
      have := roundToInt_down_nonneg hq
      have hcast : (0 : ℚ) ≤ (roundToInt .down (x / p.amount_precision) : ℚ) := by
        exact_mod_cast this
      exact mul_nonneg hcast (le_of_lt hpos)

/-- Rounding a non-negative value away from zero yields a non-negative
value, whatever the amount step. -/
theorem round_amount_up_nonneg (p : MarketPrecision) {x : ℚ} (h : 0 ≤ x) :
    0 ≤ p.round_amount x .up := by
  unfold MarketPrecision.round_amount
  by_cases hs : p.amount_precision = 0
  · simpa [hs]
  · rw [if_neg hs]
    rcases lt_or_gt_of_ne hs with hneg | hpos
    · have hq : x / p.amount_precision ≤ 0 :=
        div_nonpos_of_nonneg_of_nonpos h (le_of_lt hneg)
      have := roundToInt_up_nonpos hq
      have hcast : (roundToInt .up (x / p.amount_precision) : ℚ) ≤ 0 := by
        exact_mod_cast this
      nlinarith [hcast, hneg]
    · have hq : 0 ≤ x / p.amount_precision := div_nonneg h (le_of_lt hpos)
      have := roundToInt_up_nonneg hq
      have hcast : (0 : ℚ) ≤ (roundToInt .up (x / p.amount_precision) : ℚ) := by
        exact_mod_cast this
      exact mul_nonneg hcast (le_of_lt hpos)

/-- round_amount maps its own image to itself. -/
theorem round_amount_round_amount (p : MarketPrecision) (x : ℚ)
    (m : RoundingMode) :
    p.round_amount (p.round_amount x m) m = p.round_amount x m := by
  unfold MarketPrecision.round_amount
  by_cases hs : p.amount_precision = 0
  · simp [hs]
  · rw [if_neg hs, if_neg hs, mul_div_cancel_right₀ _ hs, roundToInt_intCast]

/-- C9: `round_amount` is idempotent: for every decimal value and every
rounding mode, `round_amount(round_amount(x, m), m) = round_amount(x, m)`,
including when the amount step is zero. -/
theorem C9_round_amount_idempotent (p : MarketPrecision) (x : ℚ)
    (m : RoundingMode) :
    p.round_amount (p.round_amount x m) m = p.round_amount x m :=
  round_amount_round_amount p x m

/-- C3: `limit_buy` and `limit_sell` quantize the price argument with
`round_amount(·, Down)` — the amount step, not the price step — before any
validation or cross-check is performed: replacing the price argument by its
amount-step-down-rounded value leaves the entire observable behaviour of
both calls unchanged, error cases included. -/
theorem C3_limit_price_quantized_with_amount_step (ctx : StrategyContext)
    (price amount : ℚ) :
    ctx.limit_buy (ctx.precision.round_amount price .down) amount
        = ctx.limit_buy price amount ∧
    ctx.limit_sell (ctx.precision.round_amount price .down) amount
        = ctx.limit_sell price amount := by
  constructor
  · unfold StrategyContext.limit_buy
    rw [round_amount_round_amount]
  · unfold StrategyContext.limit_sell
    rw [round_amount_round_amount]

/-- C4: when the rounded amount is positive, a candle is present, and
`cost + fee` exceeds the balance, `market_buy` fails with the
insufficient-funds error.  In this embedding a failing call produces no
successor state — the source returns the error before assigning any field —
so balance, position, orders, candles and the trade journal are those of
the context before the call and no journal entry is appended. -/
theorem C4_market_buy_insufficient_funds_rejected (ctx : StrategyContext)
    (amount : ℚ) (c : Candle)
    (hc : ctx.candles.getLast? = some c)
    (hpos : 0 < ctx.precision.round_amount amount .down)
    (hfunds : c.close * ctx.precision.round_amount amount .down +
        ctx.precision.round_amount
          (c.close * ctx.precision.round_amount amount .down * ctx.fees.taker)
          .up > ctx.balance) :
    ctx.market_buy amount = .error "Insufficient funds" := by
  unfold StrategyContext.market_buy
  simp only [hc]
  rw [if_neg (not_le.2 hpos), if_pos hfunds]

/-- C4 witness: balance 10, `market_buy 1` at close 100 with
ten-basis-point taker fee is rejected. -/
theorem C4_witness : c4Ctx.market_buy 1 = .error "Insufficient funds" :=
  C4_market_buy_insufficient_funds_rejected c4Ctx 1 (flatCandle 0 100) rfl
    (by norm_num [c4Ctx, noPrecision, MarketPrecision.round_amount])
    (by norm_num [c4Ctx, bpFees, noPrecision, flatCandle,
      MarketPrecision.round_amount])

/-- C10: with a candle present, a positive rounded amount within the
position, and a rounded price strictly above the last close (no market
fallback), `limit_sell` fails with the fee-oriented insufficient-funds
error exactly when the rounded maker fee exceeds the balance — and then,
by the `Except` embedding, balance, position, resting orders and journal
are unchanged — while the reservation `position -= amount, balance -= fee`
happens exactly when the fee is at most the balance. -/
theorem C10_limit_sell_fee_exceeds_balance (ctx : StrategyContext)
    (price amount a p f : ℚ) (c : Candle)
    (hc : ctx.candles.getLast? = some c)
    (ha : a = ctx.precision.round_amount amount .down)
    (hp : p = ctx.precision.round_amount price .down)
    (hf : f = ctx.precision.round_amount (p * a * ctx.fees.maker) .up)
    (hpos : 0 < a) (hposs : a ≤ ctx.position) (habove : c.close < p) :
    (f > ctx.balance →
      ctx.limit_sell price amount = .error "Insufficient funds to cover fee") ∧
    (f ≤ ctx.balance →
      ctx.limit_sell price amount = .ok
        ({ ctx with
             position := ctx.position - a
             balance := ctx.balance - f
             orders := ctx.orders ++
               [{ id := ctx.nextId, order_type := .limitSell, price := p,
                  amount := a, fee := f }]
             nextId := ctx.nextId + 1 }, some ctx.nextId)) := by
  subst ha hp hf
  unfold StrategyContext.limit_sell
  simp only [hc]
  rw [if_neg (not_le.2 hpos), if_neg (not_lt.2 hposs),
    if_neg (not_le.2 habove)]
  constructor
  · intro h
    rw [if_pos h]
  · intro h
    rw [if_neg (not_lt.2 h)]

/-- C10 witness: balance 1/25, position 5, close 100; `limit_sell 200 1`
needs maker fee 1/5 and is rejected. -/
theorem C10_witness :
    c10Ctx.limit_sell 200 1 = .error "Insufficient funds to cover fee" :=
  (C10_limit_sell_fee_exceeds_balance c10Ctx 200 1 1 200 (1 / 5)
    (flatCandle 0 100) rfl
    (by norm_num [c10Ctx, noPrecision, MarketPrecision.round_amount])
    (by norm_num [c10Ctx, noPrecision, MarketPrecision.round_amount])
    (by norm_num [c10Ctx, bpFees, noPrecision, MarketPrecision.round_amount])
    (by norm_num) (by norm_num [c10Ctx])
    (by norm_num [flatCandle])).1 (by norm_num [c10Ctx])

/-- Looking an id up in an order list extended with a fresh order finds the
new order. -/
theorem find?_append_fresh (l : List Order) (i : Nat) (t : OrderType)
    (pr am fe : ℚ) (h : ∀ o2 ∈ l, o2.id ≠ i) :
    (l ++ [(⟨i, t, pr, am, fe⟩ : Order)]).find? (fun o2 => o2.id == i)
      = some (⟨i, t, pr, am, fe⟩ : Order) := by
  induction l with
  | nil => simp
  | cons x xs ih =>
    have hx : (x.id == i) = false := by
      simpa using h x (by simp)
    simp only [List.cons_append, List.find?, hx]
    exact ih fun o2 ho2 => h o2 (by simp [ho2])

/-- C6: a resting `limit_buy` then `cancel_order` on the returned id
restores the balance exactly and leaves the position unchanged throughout;
a resting `limit_sell` then `cancel_order` restores both the position (by
the reserved amount) and the balance (by the reserved maker fee) exactly.
The freshness hypothesis is the counterpart in the model of the uniqueness of
the random UUIDs of the source. -/
theorem C6_cancel_order_roundtrip (ctx : StrategyContext)
    (price amount : ℚ) (ctx' : StrategyContext) (oid : Nat)
    (hfresh : ∀ o ∈ ctx.orders, o.id ≠ ctx.nextId) :
    (ctx.limit_buy price amount = .ok (ctx', some oid) →
      ctx'.position = ctx.position ∧
      (ctx'.cancel_order oid).balance = ctx.balance ∧
      (ctx'.cancel_order oid).position = ctx.position) ∧
    (ctx.limit_sell price amount = .ok (ctx', some oid) →
      (ctx'.cancel_order oid).position = ctx.position ∧
      (ctx'.cancel_order oid).balance = ctx.balance) := by
  constructor
  · intro h
    unfold StrategyContext.limit_buy at h
    dsimp only at h
    by_cases h1 : ctx.precision.round_amount amount .down ≤ 0
    · rw [if_pos h1] at h; exact Except.noConfusion h
    · rw [if_neg h1] at h
      cases hcl : ctx.candles.getLast? with
      | none => rw [hcl] at h; exact Except.noConfusion h
      | some c =>
        rw [hcl] at h
        dsimp only at h
        by_cases h2 : ctx.precision.round_amount price .down ≥ c.close
        · rw [if_pos h2] at h
          cases hmb : ctx.market_buy (ctx.precision.round_amount amount .down) with
          | ok c2 =>
              rw [hmb] at h
              exact Option.noConfusion ((Prod.mk.injEq _ _ _ _).mp
                (Except.ok.inj h)).2
          | error e => rw [hmb] at h; exact Except.noConfusion h
        · rw [if_neg h2] at h
          by_cases h3 : ctx.precision.round_amount amount .down *
              ctx.precision.round_amount price .down +
              ctx.precision.round_amount
                (ctx.precision.round_amount amount .down *
                  ctx.precision.round_amount price .down * ctx.fees.maker)
                .up > ctx.balance
          · rw [if_pos h3] at h; exact Except.noConfusion h
          · rw [if_neg h3] at h
            obtain ⟨hctx, hoid⟩ := (Prod.mk.injEq _ _ _ _).mp (Except.ok.inj h)
            obtain rfl := Option.some.inj hoid
            refine ⟨by rw [← hctx], ?_, ?_⟩ <;>
            · rw [← hctx]
              unfold StrategyContext.cancel_order
              dsimp only
              rw [find?_append_fresh _ _ _ _ _ _ hfresh]
              try dsimp only
              try ring
  · intro h
    unfold StrategyContext.limit_sell at h
    dsimp only at h
    by_cases h1 : ctx.precision.round_amount amount .down ≤ 0
    · rw [if_pos h1] at h; exact Except.noConfusion h
    · rw [if_neg h1] at h
      by_cases h2 : ctx.precision.round_amount amount .down > ctx.position
      · rw [if_pos h2] at h; exact Except.noConfusion h
      · rw [if_neg h2] at h
        cases hcl : ctx.candles.getLast? with
        | none => rw [hcl] at h; exact Except.noConfusion h
        | some c =>
          rw [hcl] at h
          dsimp only at h
          by_cases h3 : ctx.precision.round_amount price .down ≤ c.close
          · rw [if_pos h3] at h
            cases hms : ctx.market_sell (ctx.precision.round_amount amount .down) with
            | ok c2 =>
                rw [hms] at h
                exact Option.noConfusion ((Prod.mk.injEq _ _ _ _).mp
                  (Except.ok.inj h)).2
            | error e => rw [hms] at h; exact Except.noConfusion h
          · rw [if_neg h3] at h
            by_cases h4 : ctx.precision.round_amount
                (ctx.precision.round_amount price .down *
                  ctx.precision.round_amount amount .down * ctx.fees.maker)
                .up > ctx.balance
            · rw [if_pos h4] at h; exact Except.noConfusion h
            · rw [if_neg h4] at h
              obtain ⟨hctx, hoid⟩ := (Prod.mk.injEq _ _ _ _).mp (Except.ok.inj h)
              obtain rfl := Option.some.inj hoid
              constructor <;>
              · rw [← hctx]
                unfold StrategyContext.cancel_order
                dsimp only
                rw [find?_append_fresh _ _ _ _ _ _ hfresh]
                dsimp only
                ring

/-- C6 witness: on `c6Ctx` (balance 1000, position 5, close 100),
`limit_buy 50 1` rests at cost 50 and cancelling the returned id 0 restores
balance 1000 and position 5. -/
theorem C6_witness :
    c6Ctx'.position = c6Ctx.position ∧
    (c6Ctx'.cancel_order 0).balance = c6Ctx.balance ∧
    (c6Ctx'.cancel_order 0).position = c6Ctx.position :=
  (C6_cancel_order_roundtrip c6Ctx 50 1 c6Ctx' 0 (by simp [c6Ctx])).1
    (by norm_num [c6Ctx, c6Ctx', zeroFees, noPrecision, flatCandle,
      StrategyContext.limit_buy, MarketPrecision.round_amount])

/-- A successful `market_buy` preserves solvency. -/
theorem market_buy_solvent {ctx ctx' : StrategyContext} {a : ℚ}
    (hs : ctx.Solvent) (h : ctx.market_buy a = .ok ctx') : ctx'.Solvent := by
  obtain ⟨hb, hp, ho, hm⟩ := hs
  unfold StrategyContext.market_buy at h
  dsimp only at h
  by_cases h1 : ctx.precision.round_amount a .down ≤ 0
  · rw [if_pos h1] at h; exact Except.noConfusion h
  · rw [if_neg h1] at h
    cases hcl : ctx.candles.getLast? with
    | none => rw [hcl] at h; exact Except.noConfusion h
    | some c =>
      rw [hcl] at h
      dsimp only at h
      by_cases h2 : c.close * ctx.precision.round_amount a .down +
          ctx.precision.round_amount
            (c.close * ctx.precision.round_amount a .down * ctx.fees.taker)
            .up > ctx.balance
      · rw [if_pos h2] at h; exact Except.noConfusion h
      · rw [if_neg h2] at h
        obtain rfl := (Except.ok.inj h).symm
        exact ⟨sub_nonneg.2 (not_lt.1 h2),
          add_nonneg hp (le_of_lt (not_le.1 h1)), ho, hm⟩

/-- A successful `market_sell` preserves solvency. -/
theorem market_sell_solvent {ctx ctx' : StrategyContext} {a : ℚ}
    (hs : ctx.Solvent) (h : ctx.market_sell a = .ok ctx') : ctx'.Solvent := by
  obtain ⟨hb, hp, ho, hm⟩ := hs
  unfold StrategyContext.market_sell at h
  dsimp only at h
  by_cases h1 : ctx.precision.round_amount a .down ≤ 0
  · rw [if_pos h1] at h; exact Except.noConfusion h
  · rw [if_neg h1] at h
    by_cases h2 : ctx.precision.round_amount a .down > ctx.position
    · rw [if_pos h2] at h; exact Except.noConfusion h
    · rw [if_neg h2] at h
      cases hcl : ctx.candles.getLast? with
      | none => rw [hcl] at h; exact Except.noConfusion h
      | some c =>
        rw [hcl] at h
        dsimp only at h
        by_cases h3 : c.close * ctx.precision.round_amount a .down -
            ctx.precision.round_amount
              (c.close * ctx.precision.round_amount a .down * ctx.fees.taker)
              .up < 0
        · rw [if_pos h3] at h; exact Except.noConfusion h
        · rw [if_neg h3] at h
          obtain rfl := (Except.ok.inj h).symm
          exact ⟨add_nonneg hb (not_lt.1 h3), sub_nonneg.2 (not_lt.1 h2),
            ho, hm⟩

/-- A successful `limit_buy` with a non-negative price argument preserves
solvency. -/
theorem limit_buy_solvent {ctx : StrategyContext} {p a : ℚ}
    {res : StrategyContext × Option Nat} (hprice : 0 ≤ p) (hs : ctx.Solvent)
    (h : ctx.limit_buy p a = .ok res) : res.1.Solvent := by
  obtain ⟨hb, hp, ho, hm⟩ := hs
  unfold StrategyContext.limit_buy at h
  dsimp only at h
  by_cases h1 : ctx.precision.round_amount a .down ≤ 0
  · rw [if_pos h1] at h; exact Except.noConfusion h
  · rw [if_neg h1] at h
    cases hcl : ctx.candles.getLast? with
    | none => rw [hcl] at h; exact Except.noConfusion h
    | some c =>
      rw [hcl] at h
      dsimp only at h
      by_cases h2 : ctx.precision.round_amount p .down ≥ c.close
      · rw [if_pos h2] at h
        cases hmb : ctx.market_buy (ctx.precision.round_amount a .down) with
        | ok c2 =>
            rw [hmb] at h
            obtain rfl := (Except.ok.inj h).symm
            exact market_buy_solvent ⟨hb, hp, ho, hm⟩ hmb
        | error e => rw [hmb] at h; exact Except.noConfusion h
      · rw [if_neg h2] at h
        by_cases h3 : ctx.precision.round_amount a .down *
            ctx.precision.round_amount p .down +
            ctx.precision.round_amount
              (ctx.precision.round_amount a .down *
                ctx.precision.round_amount p .down * ctx.fees.maker) .up >
            ctx.balance
        · rw [if_pos h3] at h; exact Except.noConfusion h
        · rw [if_neg h3] at h
          obtain rfl := (Except.ok.inj h).symm
          refine ⟨sub_nonneg.2 (not_lt.1 h3), hp, ?_, hm⟩
          intro o hoapp
          rcases List.mem_append.1 hoapp with hol | hor
          · exact ho o hol
          · rw [List.mem_singleton] at hor
            subst hor
            exact ⟨round_amount_down_nonneg _ hprice,
              le_of_lt (not_le.1 h1),
              round_amount_up_nonneg _ (mul_nonneg (mul_nonneg
                (le_of_lt (not_le.1 h1))
                (round_amount_down_nonneg _ hprice)) hm)⟩

/-- A successful `limit_sell` with a non-negative price argument preserves
solvency. -/
theorem limit_sell_solvent {ctx : StrategyContext} {p a : ℚ}
    {res : StrategyContext × Option Nat} (hprice : 0 ≤ p) (hs : ctx.Solvent)
    (h : ctx.limit_sell p a = .ok res) : res.1.Solvent := by
  obtain ⟨hb, hp, ho, hm⟩ := hs
  unfold StrategyContext.limit_sell at h
  dsimp only at h
  by_cases h1 : ctx.precision.round_amount a .down ≤ 0
  · rw [if_pos h1] at h; exact Except.noConfusion h
  · rw [if_neg h1] at h
    by_cases h2 : ctx.precision.round_amount a .down > ctx.position
    · rw [if_pos h2] at h; exact Except.noConfusion h
    · rw [if_neg h2] at h
      cases hcl : ctx.candles.getLast? with
      | none => rw [hcl] at h; exact Except.noConfusion h
      | some c =>
        rw [hcl] at h
        dsimp only at h
        by_cases h3 : ctx.precision.round_amount p .down ≤ c.close
        · rw [if_pos h3] at h
          cases hms : ctx.market_sell (ctx.precision.round_amount a .down) with
          | ok c2 =>
              rw [hms] at h
              obtain rfl := (Except.ok.inj h).symm
              exact market_sell_solvent ⟨hb, hp, ho, hm⟩ hms
          | error e => rw [hms] at h; exact Except.noConfusion h
        · rw [if_neg h3] at h
          by_cases h4 : ctx.precision.round_amount
              (ctx.precision.round_amount p .down *
                ctx.precision.round_amount a .down * ctx.fees.maker) .up >
              ctx.balance
          · rw [if_pos h4] at h; exact Except.noConfusion h
          · rw [if_neg h4] at h
            obtain rfl := (Except.ok.inj h).symm
            refine ⟨sub_nonneg.2 (not_lt.1 h4), sub_nonneg.2 (not_lt.1 h2),
              ?_, hm⟩
            intro o hoapp
            rcases List.mem_append.1 hoapp with hol | hor
            · exact ho o hol
            · rw [List.mem_singleton] at hor
              subst hor
              exact ⟨round_amount_down_nonneg _ hprice,
                le_of_lt (not_le.1 h1),
                round_amount_up_nonneg _ (mul_nonneg (mul_nonneg
                  (round_amount_down_nonneg _ hprice)
                  (le_of_lt (not_le.1 h1))) hm)⟩

/-- `cancel_order` preserves solvency. -/
theorem cancel_order_solvent {ctx : StrategyContext} (i : Nat)
    (hs : ctx.Solvent) : (ctx.cancel_order i).Solvent := by
  obtain ⟨hb, hp, ho, hm⟩ := hs
  unfold StrategyContext.cancel_order
  cases hf : ctx.orders.find? (fun o => o.id == i) with
  | none => exact ⟨hb, hp, ho, hm⟩
  | some o =>
    obtain ⟨hopr, hoam, hofe⟩ := ho o (List.mem_of_find?_eq_some hf)
    have herase : ∀ o2 ∈ ctx.orders.eraseP (fun o2 => o2.id == i), o2.WF :=
      fun o2 h2 => ho o2 ((List.eraseP_sublist _).subset h2)
    rcases o with ⟨oid, ot, opr, oam, ofe⟩
    cases ot with
    | limitBuy =>
        exact ⟨add_nonneg hb (add_nonneg (mul_nonneg hopr hoam) hofe), hp,
          herase, hm⟩
    | limitSell =>
        exact ⟨add_nonneg hb hofe, add_nonneg hp hoam, herase, hm⟩

/-- Folding the fill loop of `before` over well-formed orders preserves
solvency. -/
theorem foldl_beforeStep_solvent (candle : Candle) (l : List Order)
    {c : StrategyContext} (hl : ∀ o ∈ l, o.WF) (hc : c.Solvent) :
    (l.foldl (StrategyContext.beforeStep candle) c).Solvent := by
  induction l generalizing c with
  | nil => exact hc
  | cons o rest ih =>
    rw [List.foldl_cons]
    refine ih (fun o2 h2 => hl o2 (List.mem_cons_of_mem _ h2)) ?_
    obtain ⟨hb, hp, ho, hm⟩ := hc
    obtain ⟨hopr, hoam, hofe⟩ := hl o (List.mem_cons_self _ _)
    rcases o with ⟨oid, ot, opr, oam, ofe⟩
    cases ot with
    | limitBuy =>
        refine ⟨hb, add_nonneg hp hoam, ?_, hm⟩
        intro o2 h2
        exact ho o2 (List.mem_of_mem_filter h2)
    | limitSell =>
        refine ⟨add_nonneg hb (mul_nonneg hopr hoam), hp, ?_, hm⟩
        intro o2 h2
        exact ho o2 (List.mem_of_mem_filter h2)

/-- A successful `before` preserves solvency. -/
theorem before_solvent {ctx ctx' : StrategyContext} (hs : ctx.Solvent)
    (h : ctx.before = .ok ctx') : ctx'.Solvent := by
  unfold StrategyContext.before at h
  cases hcl : ctx.candles.getLast? with
  | none => rw [hcl] at h; exact Except.noConfusion h
  | some c =>
    rw [hcl] at h
    dsimp only at h
    obtain rfl := (Except.ok.inj h).symm
    exact foldl_beforeStep_solvent c _
      (fun o ho2 => hs.2.2.1 o (List.mem_of_mem_filter ho2)) hs

/-- Folding `cancel_order` over any ids preserves solvency. -/
theorem foldl_cancel_solvent (ids : List Nat) {c : StrategyContext}
    (hc : c.Solvent) :
    (ids.foldl (fun c2 i => c2.cancel_order i) c).Solvent := by
  induction ids generalizing c with
  | nil => exact hc
  | cons i rest ih => exact ih (cancel_order_solvent i hc)

/-- `endRun` preserves solvency. -/
theorem endRun_solvent {ctx : StrategyContext} (hs : ctx.Solvent) :
    ctx.endRun.Solvent :=
  foldl_cancel_solvent _ hs

/-- A successful step with a non-negative price argument preserves
solvency. -/
theorem applyOp_solvent {ctx ctx' : StrategyContext} {op : CtxOp}
    (hop : op.PriceNonneg) (hs : ctx.Solvent)
    (h : applyOp ctx op = .ok ctx') : ctx'.Solvent := by
  obtain ⟨hb, hp, ho, hm⟩ := hs
  cases op with
  | pushCandle c =>
      obtain rfl := (Except.ok.inj h).symm
      exact ⟨hb, hp, ho, hm⟩
  | marketBuy a => exact market_buy_solvent ⟨hb, hp, ho, hm⟩ h
  | marketSell a => exact market_sell_solvent ⟨hb, hp, ho, hm⟩ h
  | limitBuy p a =>
      dsimp only [applyOp] at h
      cases hlb : ctx.limit_buy p a with
      | ok res =>
          rw [hlb] at h
          obtain ⟨c2, oid⟩ := res
          dsimp only at h
          obtain rfl := (Except.ok.inj h).symm
          exact limit_buy_solvent hop ⟨hb, hp, ho, hm⟩ hlb
      | error e => rw [hlb] at h; exact Except.noConfusion h
  | limitSell p a =>
      dsimp only [applyOp] at h
      cases hls : ctx.limit_sell p a with
      | ok res =>
          rw [hls] at h
          obtain ⟨c2, oid⟩ := res
          dsimp only at h
          obtain rfl := (Except.ok.inj h).symm
          exact limit_sell_solvent hop ⟨hb, hp, ho, hm⟩ hls
      | error e => rw [hls] at h; exact Except.noConfusion h
  | cancelOrder i =>
      obtain rfl := (Except.ok.inj h).symm
      exact cancel_order_solvent i ⟨hb, hp, ho, hm⟩
  | beforeHook => exact before_solvent ⟨hb, hp, ho, hm⟩ h
  | afterHook =>
      obtain rfl := (Except.ok.inj h).symm
      exact ⟨hb, hp, ho, hm⟩
  | endHook =>
      obtain rfl := (Except.ok.inj h).symm
      exact endRun_solvent ⟨hb, hp, ho, hm⟩

/-- A successful run of steps with non-negative price arguments preserves
solvency. -/
theorem runOps_solvent {ops : List CtxOp} {ctx ctx' : StrategyContext}
    (hops : ∀ op ∈ ops, op.PriceNonneg) (hs : ctx.Solvent)
    (h : runOps ctx ops = .ok ctx') : ctx'.Solvent := by
  induction ops generalizing ctx with
  | nil =>
      obtain rfl := Except.ok.inj h
      exact hs
  | cons op rest ih =>
      unfold runOps at h
      cases hap : applyOp ctx op with
      | error e => rw [hap] at h; exact Except.noConfusion h
      | ok c =>
          rw [hap] at h
          exact ih (fun o2 h2 => hops o2 (List.mem_cons_of_mem _ h2))
            (applyOp_solvent (hops op (List.mem_cons_self _ _))
              ⟨hs.1, hs.2.1, hs.2.2.1, hs.2.2.2⟩ hap) h

/-- C1 counterexample: from a fresh context with balance 100, zero fees and
no rounding steps (all well-formed per the data model), the successful
sequence `c1Ops` — push a candle at close 100, rest a limit buy at price
-50 (credited 50 at reservation), market-buy 3/2 units for the whole
balance of 150, then cancel the resting order — ends with balance -50 < 0,
refuting the claim that every successful sequence keeps the balance
non-negative. -/
theorem C1_counterexample :
    runBalance (StrategyContext.new 100 zeroFees noPrecision) c1Ops
      = some (-50) ∧ ¬(0 ≤ (-50 : ℚ)) := by
  constructor
  · norm_num [runBalance, runOps, c1Ops, applyOp, StrategyContext.new,
      StrategyContext.limit_buy, StrategyContext.market_buy,
      StrategyContext.cancel_order, MarketPrecision.round_amount, zeroFees,
      noPrecision, flatCandle, List.find?, List.eraseP]
  · norm_num

/-- C1 (amended): for every sequence of successful context steps (the
public trading calls, the hooks, and the candle appends of the runner) starting
from a fresh context with non-negative initial balance and zero position,
provided the maker fee rate is non-negative and every price argument passed
to `limit_buy`/`limit_sell` is non-negative, the final context — hence the
context after every successful prefix — satisfies `balance ≥ 0` and
`position ≥ 0`. -/
theorem C1_amended_solvency (b : ℚ) (hb : 0 ≤ b) (fees : TradingFees)
    (hm : 0 ≤ fees.maker) (precision : MarketPrecision) (ops : List CtxOp)
    (hops : ∀ op ∈ ops, op.PriceNonneg) (ctx' : StrategyContext)
    (h : runOps (StrategyContext.new b fees precision) ops = .ok ctx') :
    0 ≤ ctx'.balance ∧ 0 ≤ ctx'.position := by
  have hs : (StrategyContext.new b fees precision).Solvent :=
    ⟨hb, le_refl 0, by intro o ho2; exact absurd ho2 (List.not_mem_nil o), hm⟩
  have := runOps_solvent hops hs h
  exact ⟨this.1, this.2.1⟩

/-- C1 witness: from a fresh context with balance 1000, the sequence
`c1wOps` (push a candle at close 100, market-buy one unit) succeeds and the
invariant holds at the end. -/
theorem C1_witness : 0 ≤ c1wCtx.balance ∧ 0 ≤ c1wCtx.position :=
  C1_amended_solvency 1000 (by norm_num) zeroFees (by norm_num [zeroFees])
    noPrecision c1wOps
    (by simp [c1wOps, List.forall_mem_cons, CtxOp.PriceNonneg])
    c1wCtx
    (by norm_num [runOps, c1wOps, applyOp, StrategyContext.new, c1wCtx,
      StrategyContext.market_buy, MarketPrecision.round_amount, zeroFees,
      noPrecision, flatCandle])

/-- C2: for every drained sell trade the statistic step increments
`sell_trades`, credits the balance with `revenue = price*amount - fee`,
debits the position by the amount, attributes the realized profit
`revenue - avg_cost*amount` (with `avg_cost = 0` when the running position
is zero and `total_cost/position` otherwise) to the emitted journal entry,
and resets `total_cost` to exactly 0 when the resulting position is zero,
otherwise reduces it by `avg_cost*amount`. -/
theorem C2_statistic_sell_update (s : StatState) (t : Trade)
    (h : t.isBuy = false) :
    (statStep s t).sell_trades = s.sell_trades + 1 ∧
    (statStep s t).balance = s.balance + (t.price * t.amount - t.fee) ∧
    (statStep s t).position = s.position - t.amount ∧
    (statStep s t).total_cost =
      (if s.position - t.amount = 0 then 0
       else s.total_cost -
         (if s.position = 0 then 0 else s.total_cost / s.position) *
           t.amount) ∧
    (statStep s t).trades_with_profit = s.trades_with_profit ++
      [{ t with profit := some (t.price * t.amount - t.fee -
          (if s.position = 0 then 0 else s.total_cost / s.position) *
            t.amount) }] := by
  unfold statStep
  simp only [h, Bool.false_eq_true, if_false]
  refine ⟨?_, ?_, ?_, ?_, ?_⟩ <;> (dsimp only; split_ifs <;> rfl)

/-- C2 witness: the step on `c2Stat` (position 2, total cost 40, balance
100) and the sell `c2Trade` (one unit at 30 with fee 1). -/
theorem C2_witness :
    (statStep c2Stat c2Trade).sell_trades = c2Stat.sell_trades + 1 ∧
    (statStep c2Stat c2Trade).balance = c2Stat.balance +
      (c2Trade.price * c2Trade.amount - c2Trade.fee) ∧
    (statStep c2Stat c2Trade).position = c2Stat.position - c2Trade.amount ∧
    (statStep c2Stat c2Trade).total_cost =
      (if c2Stat.position - c2Trade.amount = 0 then 0
       else c2Stat.total_cost -
         (if c2Stat.position = 0 then 0
          else c2Stat.total_cost / c2Stat.position) * c2Trade.amount) ∧
    (statStep c2Stat c2Trade).trades_with_profit =
      c2Stat.trades_with_profit ++
      [{ c2Trade with profit := some (c2Trade.price * c2Trade.amount -
          c2Trade.fee -
          (if c2Stat.position = 0 then 0
           else c2Stat.total_cost / c2Stat.position) * c2Trade.amount) }] :=
  C2_statistic_sell_update c2Stat c2Trade (by norm_num [c2Trade, Trade.isBuy])

/-- Field characterization of the fill loop of `before` over an arbitrary
list of collected orders: the balance gains the proceeds of the sells, the
position the amounts of the buys, the journal gains one fill entry per
order in order, and the resting set keeps exactly the orders whose id is
not among the processed ids. -/
theorem foldl_beforeStep_fields (candle : Candle) (l : List Order)
    (c : StrategyContext) :
    (l.foldl (StrategyContext.beforeStep candle) c).balance
        = c.balance + (l.map sellProceeds).sum ∧
    (l.foldl (StrategyContext.beforeStep candle) c).position
        = c.position + (l.map buyAmount).sum ∧
    (l.foldl (StrategyContext.beforeStep candle) c).trades
        = c.trades ++ l.map (fillTrade candle) ∧
    (l.foldl (StrategyContext.beforeStep candle) c).orders
        = c.orders.filter (fun o2 => decide (∀ o3 ∈ l, o2.id ≠ o3.id)) := by
  induction l generalizing c with
  | nil => simp
  | cons o rest ih =>
    rw [List.foldl_cons]
    obtain ⟨ihb, ihp, iht, iho⟩ := ih (StrategyContext.beforeStep candle c o)
    have hstep_orders : (StrategyContext.beforeStep candle c o).orders
        = c.orders.filter (fun o2 => o2.id != o.id) := by
      rcases o with ⟨oid, ot, opr, oam, ofe⟩
      cases ot <;> rfl
    have hstep_balance : (StrategyContext.beforeStep candle c o).balance
        = c.balance + sellProceeds o := by
      rcases o with ⟨oid, ot, opr, oam, ofe⟩
      cases ot <;> (dsimp only [StrategyContext.beforeStep,
        StrategyContext.execute_limit_buy, StrategyContext.execute_limit_sell,
        sellProceeds] <;> ring)
    have hstep_position : (StrategyContext.beforeStep candle c o).position
        = c.position + buyAmount o := by
      rcases o with ⟨oid, ot, opr, oam, ofe⟩
      cases ot <;> (dsimp only [StrategyContext.beforeStep,
        StrategyContext.execute_limit_buy, StrategyContext.execute_limit_sell,
        buyAmount] <;> ring)
    have hstep_trades : (StrategyContext.beforeStep candle c o).trades
        = c.trades ++ [fillTrade candle o] := by
      rcases o with ⟨oid, ot, opr, oam, ofe⟩
      cases ot <;> rfl
    refine ⟨?_, ?_, ?_, ?_⟩
    · rw [ihb, hstep_balance, List.map_cons, List.sum_cons]
      ring
    · rw [ihp, hstep_position, List.map_cons, List.sum_cons]
      ring
    · rw [iht, hstep_trades, List.map_cons, List.append_assoc]
      rfl
    · rw [iho, hstep_orders, List.filter_filter]
      refine List.filter_congr fun a _ => ?_
      rw [Bool.eq_iff_iff]
      simp [List.forall_mem_cons, and_comm]

/-- C5: in `before`, with the current candle present and pairwise distinct
order ids (the context invariant), every resting limit buy with
`price ≥ candle.low` fills at its stored price — the position grows by
exactly the filled buy amounts, with no balance debit — and every resting
limit sell with `price ≤ candle.high` fills at its stored price — the
balance grows by exactly `price*amount` per filled sell; each filled order
is removed, a journal entry of the corresponding limit trade type carrying
the stored price, amount and fee of the order is appended per fill in insertion
order, and the unfilled orders (exactly those not matching their fill
condition) remain resting. -/
theorem C5_before_fills_resting_orders (ctx : StrategyContext)
    (candle : Candle) (ctx' : StrategyContext)
    (hc : ctx.candles.getLast? = some candle)
    (hnodup : (ctx.orders.map (fun o => o.id)).Nodup)
    (h : ctx.before = .ok ctx') :
    ctx'.position = ctx.position +
      ((ctx.orders.filter (StrategyContext.fillable candle)).map
        buyAmount).sum ∧
    ctx'.balance = ctx.balance +
      ((ctx.orders.filter (StrategyContext.fillable candle)).map
        sellProceeds).sum ∧
    ctx'.trades = ctx.trades ++
      (ctx.orders.filter (StrategyContext.fillable candle)).map
        (fillTrade candle) ∧
    ctx'.orders = ctx.orders.filter
      (fun o => !StrategyContext.fillable candle o) := by
  unfold StrategyContext.before at h
  rw [hc] at h
  dsimp only at h
  obtain rfl := (Except.ok.inj h).symm
  obtain ⟨hb, hp, ht, ho⟩ := foldl_beforeStep_fields candle
    (ctx.orders.filter (StrategyContext.fillable candle)) ctx
  refine ⟨hp, hb, ht, ?_⟩
  rw [ho]
  refine List.filter_congr fun a ha => ?_
  rw [Bool.eq_iff_iff]
  simp only [decide_eq_true_eq, Bool.not_eq_true']
  constructor
  · intro hall
    cases hfa : StrategyContext.fillable candle a with
    | false => rfl
    | true => exact absurd rfl (hall a (List.mem_filter.2 ⟨ha, hfa⟩))
  · intro hfa o3 ho3 hid
    obtain ⟨ho3m, ho3f⟩ := List.mem_filter.1 ho3
    obtain rfl := List.inj_on_of_nodup_map hnodup ha ho3m hid
    rw [hfa] at ho3f
    exact Bool.noConfusion ho3f

/-- C5 witness: on `c5Ctx` (one fillable buy, one unfillable sell) the
matching hook fills the buy and leaves the sell resting. -/
theorem C5_witness :
    c5Ctx'.position = c5Ctx.position +
      ((c5Ctx.orders.filter (StrategyContext.fillable c5Candle)).map
        buyAmount).sum ∧
    c5Ctx'.balance = c5Ctx.balance +
      ((c5Ctx.orders.filter (StrategyContext.fillable c5Candle)).map
        sellProceeds).sum ∧
    c5Ctx'.trades = c5Ctx.trades ++
      (c5Ctx.orders.filter (StrategyContext.fillable c5Candle)).map
        (fillTrade c5Candle) ∧
    c5Ctx'.orders = c5Ctx.orders.filter
      (fun o => !StrategyContext.fillable c5Candle o) :=
  C5_before_fills_resting_orders c5Ctx c5Candle c5Ctx' rfl
    (by simp [c5Ctx])
    (by norm_num [c5Ctx, c5Ctx', c5Candle, StrategyContext.before,
      StrategyContext.beforeStep, StrategyContext.fillable,
      StrategyContext.execute_limit_buy, StrategyContext.execute_limit_sell,
      List.filter_cons, decide_eq_true_eq, zeroFees, noPrecision])

/-- C7: the Sharpe ratio is computed over the journal entries carrying a
non-zero realized profit: if that set is empty (in particular when the
whole journal is empty) the result is `0`; if it has exactly one element
the result is `+∞`; with at least two elements, if the population standard
deviation of the per-trade returns `profit/initial_capital` is zero (i.e.
the population variance is zero) the result is `+∞`, and otherwise the
result is the finite value `mean/std_dev` of those returns. -/
theorem C7_sharpe_ratio_cases (trades : List Trade) (cap : ℚ) :
    (profitableSells trades = [] →
      calculate_sharpe_ratio trades cap = .zero) ∧
    ((profitableSells trades).length = 1 →
      calculate_sharpe_ratio trades cap = .posInf) ∧
    (2 ≤ (profitableSells trades).length →
      popVariance (tradeReturns (profitableSells trades) cap) = 0 →
      calculate_sharpe_ratio trades cap = .posInf) ∧
    (2 ≤ (profitableSells trades).length →
      popVariance (tradeReturns (profitableSells trades) cap) ≠ 0 →
      calculate_sharpe_ratio trades cap =
        .meanOverStd (listMean (tradeReturns (profitableSells trades) cap))
          (popVariance (tradeReturns (profitableSells trades) cap))) := by
  refine ⟨?_, ?_, ?_, ?_⟩
  · intro hempty
    unfold profitableSells at hempty
    unfold calculate_sharpe_ratio
    dsimp only
    split_ifs <;> simp_all
  · intro hlen
    unfold profitableSells at hlen
    unfold calculate_sharpe_ratio
    dsimp only
    split_ifs with h1 h2
    · exfalso
      obtain rfl := List.isEmpty_iff.1 h1
      simp at hlen
    · exfalso
      rw [List.isEmpty_iff.1 h2] at hlen
      simp at hlen
    · rfl
  · intro hlen2 hvar
    unfold profitableSells at hlen2
    unfold calculate_sharpe_ratio
    dsimp only
    split_ifs with h1 h2 h3 h4
    · exfalso
      obtain rfl := List.isEmpty_iff.1 h1
      simp at hlen2
    · exfalso
      rw [List.isEmpty_iff.1 h2] at hlen2
      simp at hlen2
    · exfalso
      rw [h3] at hlen2
      omega
    · rfl
    · exact absurd hvar h4
  · intro hlen2 hvar
    unfold profitableSells at hlen2
    unfold calculate_sharpe_ratio
    dsimp only
    split_ifs with h1 h2 h3 h4
    · exfalso
      obtain rfl := List.isEmpty_iff.1 h1
      simp at hlen2
    · exfalso
      rw [List.isEmpty_iff.1 h2] at hlen2
      simp at hlen2
    · exfalso
      rw [h3] at hlen2
      omega
    · exact absurd h4 hvar
    · rfl

/-- C7 witness: two sells with differing non-zero profits 10 and 20 on
initial capital 100 give the finite outcome with mean 3/20 and population
variance 1/400. -/
theorem C7_witness :
    calculate_sharpe_ratio c7Trades 100 = .meanOverStd (3 / 20) (1 / 400) :=
  ((C7_sharpe_ratio_cases c7Trades 100).2.2.2
    (by norm_num [c7Trades, profitableSells, List.filter_cons,
      decide_eq_true_eq])
    (by norm_num [c7Trades, profitableSells, tradeReturns, popVariance,
      listMean, List.filter_cons, List.filterMap_cons, Function.comp,
      decide_eq_true_eq])).trans
    (by norm_num [c7Trades, profitableSells, tradeReturns, popVariance,
      listMean, List.filter_cons, List.filterMap_cons, Function.comp,
      decide_eq_true_eq])

/-- C8 counterexample: on an empty candle window the freshly created task
`c8Task` does fail with the NoData error and no statistic, but the ordered
broadcast snapshots are `[Running, Failed]` — `execute` sets the status to
`Running` and broadcasts it before the candle count is inspected — so the
task does transition to `Running`, refuting the claim that it never does. -/
theorem C8_counterexample :
    ((c8Task.execute (.ok []) zeroFees noPrecision (fun c => .ok c) 0).2.map
        (fun t => t.status)) = [.running, .failed] ∧
    (c8Task.execute (.ok []) zeroFees noPrecision
        (fun c => .ok c) 0).1.status = .failed := by
  constructor <;>
    norm_num [BacktestTaskState.execute, execute_backtest, c8Task]

/-- C8 (amended): if the candle sequence for the requested backtest is
empty, the run fails with the NoData error, the final status of the task is
`Failed` with `error_message` set to that error and `statistic` absent —
but the task first transitions to `Running` (broadcasting a `Running`
snapshot, then the `Failed` one). -/
theorem C8_empty_candles_fail (task : BacktestTaskState)
    (hstat : task.statistic = none) (fees : TradingFees)
    (precision : MarketPrecision)
    (tick : StrategyContext → Except String StrategyContext) (now : ℤ) :
    (task.execute (.ok []) fees precision tick now).1.status = .failed ∧
    (task.execute (.ok []) fees precision tick now).1.error_message
      = some "No candles available for backtest" ∧
    (task.execute (.ok []) fees precision tick now).1.statistic = none ∧
    ((task.execute (.ok []) fees precision tick now).2.map
        (fun t => t.status)) = [.running, .failed] := by
  refine ⟨?_, ?_, ?_, ?_⟩ <;>
    simp [BacktestTaskState.execute, execute_backtest, hstat]

/-- C8 witness: the amended statement at the concrete fresh task `c8Task`. -/
theorem C8_witness :
    (c8Task.execute (.ok []) zeroFees noPrecision
        (fun c => .ok c) 0).1.status = .failed ∧
    (c8Task.execute (.ok []) zeroFees noPrecision
        (fun c => .ok c) 0).1.error_message
      = some "No candles available for backtest" ∧
    (c8Task.execute (.ok []) zeroFees noPrecision
        (fun c => .ok c) 0).1.statistic = none ∧
    ((c8Task.execute (.ok []) zeroFees noPrecision
        (fun c => .ok c) 0).2.map (fun t => t.status))
      = [.running, .failed] :=
  C8_empty_candles_fail c8Task rfl zeroFees noPrecision (fun c => .ok c) 0

end Merco
